import Mathlib

/-!
Shallow embedding of the beep-boop software synthesizer (src/src/synth.rs,
src/src/synth/envelope.rs, src/src/synth/oscillator.rs, src/src/synth/waves.rs).

Modelling conventions:
- Rust f32 values are modelled as exact rationals; the embedding follows the
  real-number semantics of the arithmetic the source writes.
- Transcendental f32 operations (powf, sin) have no exact rational meaning, so
  they are passed in as uninterpreted function parameters (powf, sinf); every
  formula of the source is kept verbatim in terms of them.
- Instant and elapsed time: a monotonic timestamp is a rational number of
  milliseconds; Instant.elapsed().as_millis() as f32 becomes the floor of
  (now - triggered_time), with now passed explicitly to the sampling calls.
- rand.random::<f32>() draws are passed in as an explicit stream of rationals.
- A Rust panic (unwrap of None, out-of-range Vec index) is modelled as Option
  none propagated out of the call.
-/

namespace BeepBoop

/-- Key identities are opaque; only equality matters (synth_ui KeyCode). -/
abbrev KeyCode := Nat

/-- struct Released of synth.rs: time and envelope value at release. -/
structure Released where
  time : ℚ
  value : ℚ
deriving DecidableEq, Repr

/-- struct Note of synth.rs. -/
structure Note where
  frequency : ℚ
  triggered_by : KeyCode
  triggered_time : ℚ
  released : Option Released
deriving DecidableEq, Repr

/-- Note.new of synth.rs: Instant.now() is the explicit now argument. -/
def Note.new (frequency : ℚ) (key : KeyCode) (now : ℚ) : Note :=
  { frequency := frequency, triggered_by := key, triggered_time := now, released := none }

/-- impl PartialEq for Note of synth.rs: frequency and triggering key match. -/
def Note.eqb (a b : Note) : Bool :=
  a.frequency == b.frequency && a.triggered_by == b.triggered_by

/-- elapsed().as_millis() as f32 for a trigger timestamp, with both times in
milliseconds: as_millis truncates to whole milliseconds. -/
def elapsedMs (t now : ℚ) : ℚ :=
  ((⌊now - t⌋ : ℤ) : ℚ)

/-! ## Envelope (src/src/synth/envelope.rs) -/

namespace adsr_constraints

def MIN_ATTACK : ℚ := 1
def MAX_ATTACK : ℚ := 3000
def MIN_DECAY : ℚ := 1
def MAX_DECAY : ℚ := 3000
def MIN_SUSTAIN : ℚ := 0
def MAX_SUSTAIN : ℚ := 1
def MIN_RELEASE : ℚ := 1
def MAX_RELEASE : ℚ := 3000

end adsr_constraints

/-- enum ADSRParam of envelope.rs. -/
inductive ADSRParam where
  | Attack (val : ℚ)
  | Decay (val : ℚ)
  | Sustain (val : ℚ)
  | Release (val : ℚ)

/-- struct ADSR of envelope.rs. -/
structure ADSR where
  sample_rate : ℚ
  attack : ℚ
  decay : ℚ
  sustain : ℚ
  release : ℚ
  attack_incr : ℚ
  decay_decr : ℚ
  release_decr : ℚ
  release_samples : ℚ
deriving DecidableEq, Repr

/-- ADSR.new of envelope.rs; attack, decay, release arrive as u32 milliseconds. -/
def ADSR.new (sample_rate : ℚ) (attack decay : ℕ) (sustain : ℚ) (release : ℕ) : ADSR :=
  let attack := max adsr_constraints.MIN_ATTACK (attack : ℚ)
  let decay := max adsr_constraints.MIN_DECAY (decay : ℚ)
  let release := max adsr_constraints.MIN_RELEASE (release : ℚ)
  let attack_incr := 1 / (attack / 1000 * sample_rate)
  let decay_decr := -((1 - sustain) / (decay / 1000 * sample_rate))
  let release_decr := -(sustain / (release / 1000 * sample_rate))
  let release_samples := release / 1000 * sample_rate
  { sample_rate := sample_rate, attack := attack, decay := decay, sustain := sustain,
    release := release, attack_incr := attack_incr, decay_decr := decay_decr,
    release_decr := release_decr, release_samples := release_samples }

/-- ADSR.set_parameter of envelope.rs, kept exactly as written: attack is
clamped with val.max(1.0), decay with val.max(3.0), sustain and release are
stored as given; dependent increments are recomputed in the same arm. -/
def ADSR.set_parameter (e : ADSR) (p : ADSRParam) : ADSR :=
  match p with
  | .Attack val =>
    let a := max val 1
    { e with attack := a, attack_incr := 1 / (a / 1000 * e.sample_rate) }
  | .Decay val =>
    let d := max val 3
    { e with decay := d, decay_decr := -((1 - e.sustain) / (d / 1000 * e.sample_rate)) }
  | .Sustain val =>
    { e with sustain := val,
             decay_decr := -((1 - val) / (e.decay / 1000 * e.sample_rate)) }
  | .Release val =>
    { e with release := val, release_samples := val / 1000 * e.sample_rate }

/-- ADSR.get_volume_incr of envelope.rs. The source reads the elapsed trigger
time from an Instant; here aliveFor is that elapsed value in milliseconds
(it is only consulted in the unreleased branch, as in the source). -/
def ADSR.get_volume_incr (e : ADSR) (current : ℚ) (aliveFor : ℚ)
    (released : Option Released) : ℚ :=
  match released with
  | some r => current - r.value / e.release_samples
  | none =>
    if aliveFor ≤ e.attack then
      current + e.attack_incr
    else if aliveFor ≤ e.attack + e.decay then
      let output := current + e.decay_decr
      if output > e.sustain then output else e.sustain
    else
      e.sustain

/-! ## Waves (src/src/synth/waves.rs) -/

/-- The f32 value of 2 * pi, the period constant TWO_PI of waves.rs. -/
def TWO_PI : ℚ := 13176795 / 2097152

/-- The f32 value of pi, the constant PI of waves.rs. -/
def PI : ℚ := 13176795 / 4194304

/-- enum WaveForm of waves.rs. -/
inductive WaveForm where
  | Sine
  | Square
  | Pulse25
  | Saw
  | Triangle
deriving DecidableEq, Repr

/-- The Wave trait object of waves.rs: value at a phase, phase advance,
period. -/
structure WaveDef where
  wave_func : ℚ → ℚ
  next_phase : ℚ → ℚ → ℚ
  period : ℚ

/-- impl Wave for Sine: period TWO_PI, value sin(phase), wrap at the period.
sinf is the uninterpreted f32 sine. -/
def Sine.wave (sinf : ℚ → ℚ) : WaveDef :=
  { wave_func := fun phase => sinf phase
    next_phase := fun phase incr =>
      if phase + incr * TWO_PI ≥ TWO_PI then phase + incr * TWO_PI - TWO_PI
      else phase + incr * TWO_PI
    period := TWO_PI }

/-- impl Wave for Square: period TWO_PI, half_period PI, value 0.7 below the
half period and -0.7 above, wrap at the period. -/
def Square.wave : WaveDef :=
  { wave_func := fun phase => if phase ≤ PI then 7 / 10 else -(7 / 10)
    next_phase := fun phase incr =>
      if phase + incr * TWO_PI ≥ TWO_PI then phase + incr * TWO_PI - TWO_PI
      else phase + incr * TWO_PI
    period := TWO_PI }

/-- impl Wave for Saw: period 2.0, half_period 1.0, value = phase, and the
wrap subtracts the full period once the phase reaches the half period. -/
def Saw.wave : WaveDef :=
  { wave_func := fun phase => phase
    next_phase := fun phase incr =>
      if phase + incr * 2 ≥ 1 then phase + incr * 2 - 2
      else phase + incr * 2
    period := 2 }

/-- impl Wave for Pulse25: period 2.0, upper_part 2.0 * 0.25, value 0.7 on the
upper part and -0.7 after, wrap at the period. -/
def Pulse25.wave : WaveDef :=
  { wave_func := fun phase => if phase ≤ 1 / 2 then 7 / 10 else -(7 / 10)
    next_phase := fun phase incr =>
      if phase + incr * 2 ≥ 2 then phase + incr * 2 - 2
      else phase + incr * 2
    period := 2 }

/-- impl Wave for Triangle: period 4.0, amplitide 2.0, half_amplitude 1.0,
value -(phase - 2).abs() + 1, wrap at the period. -/
def Triangle.wave : WaveDef :=
  { wave_func := fun phase => -|phase - 2| + 1
    next_phase := fun phase incr =>
      if phase + incr * 4 ≥ 4 then phase + incr * 4 - 4
      else phase + incr * 4
    period := 4 }

/-- WaveForm.get_wave of waves.rs. -/
def WaveForm.get_wave (sinf : ℚ → ℚ) : WaveForm → WaveDef
  | .Sine => Sine.wave sinf
  | .Square => Square.wave
  | .Pulse25 => Pulse25.wave
  | .Saw => Saw.wave
  | .Triangle => Triangle.wave

/-! ## Oscillator (src/src/synth/oscillator.rs) -/

/-- struct Unison of oscillator.rs: one entry of the static per-oscillator
unison table (the spec calls it a UnisonPartial). -/
structure Unison where
  freq_mod : ℚ
  volume : ℚ
deriving DecidableEq, Repr

/-- struct UnisonVoice of oscillator.rs: per-voice phase state. -/
structure UnisonVoice where
  phase : ℚ
  phase_incr : ℚ
  volume : ℚ
deriving DecidableEq, Repr

/-- struct Voice of oscillator.rs. -/
structure Voice where
  note : Note
  volume : ℚ
  unisons : List UnisonVoice
deriving DecidableEq, Repr

/-- pub enum Start of oscillator.rs. -/
inductive Start where
  | Soft
  | Hard
  | Random

/-- enum PhaseStart of oscillator.rs. -/
inductive PhaseStart where
  | Soft
  | Hard (period : ℚ)
  | Random (period : ℚ)

/-- PhaseStart.value of oscillator.rs; r is the rand.random::<f32>() draw the
Random arm consumes. -/
def PhaseStart.value (ps : PhaseStart) (r : ℚ) : ℚ :=
  match ps with
  | .Soft => 0
  | .Hard period => period / 4
  | .Random period => period * r

/-- PhaseStart.change_period of oscillator.rs. -/
def PhaseStart.change_period (ps : PhaseStart) (period : ℚ) : PhaseStart :=
  match ps with
  | .Soft => .Soft
  | .Hard _ => .Random period
  | .Random _ => .Random period

/-- struct Oscillator of oscillator.rs; wave is the boxed trait object built
from waveform. -/
structure Oscillator where
  sample_rate : ℚ
  wave : WaveDef
  waveform : WaveForm
  env_idx : ℕ
  volume : ℚ
  voices : List Voice
  panning : ℚ
  transpose : ℚ
  tune : ℚ
  unisons : List Unison
  phase_start : PhaseStart

/-- Oscillator.new of oscillator.rs; sinf is the uninterpreted f32 sine the
Sine trait object closes over. -/
def Oscillator.new (sinf : ℚ → ℚ) (sample_rate : ℚ) (waveform : WaveForm)
    (env_idx : ℕ) (volume : ℚ) : Oscillator :=
  let volume := max (min volume 1) 0
  { sample_rate := sample_rate
    wave := waveform.get_wave sinf
    waveform := waveform
    env_idx := env_idx
    volume := volume
    voices := []
    panning := 0
    transpose := 1
    tune := 1
    unisons := [{ freq_mod := 1, volume := 1 }]
    phase_start := .Soft }

/-- The Voice the body of Oscillator.create_voice builds. rand is the stream
of rand.random::<f32>() draws the call consumes: the centered unison (present
when the table length is odd) takes its phase from the phase-start policy,
every other unison starts at period * random. -/
def Oscillator.mkVoice (o : Oscillator) (rand : ℕ → ℚ) (note : Note) : Voice :=
  let phase_incr := note.frequency / o.sample_rate * o.transpose
  let period := o.wave.period
  let unisonVoices : List UnisonVoice :=
    if o.unisons.length % 2 = 1 then
      match o.unisons with
      | [] => []
      | central :: rest =>
        { phase := o.phase_start.value (rand 0)
          phase_incr := phase_incr * central.freq_mod
          volume := central.volume }
        :: rest.enum.map (fun p =>
          { phase := period * rand (p.1 + 1)
            phase_incr := phase_incr * p.2.freq_mod
            volume := p.2.volume })
    else
      o.unisons.enum.map (fun p =>
        { phase := period * rand (p.1 + 1)
          phase_incr := phase_incr * p.2.freq_mod
          volume := p.2.volume })
  { note := note, volume := 0, unisons := unisonVoices }

/-- Oscillator.create_voice of oscillator.rs: push a fresh Voice for the note
unless some unreleased voice already matches it by Note equality. -/
def Oscillator.create_voice (o : Oscillator) (rand : ℕ → ℚ) (note : Note) : Oscillator :=
  if o.voices.any (fun v => v.note.eqb note && v.note.released.isNone) then o
  else { o with voices := o.voices ++ [o.mkVoice rand note] }

/-- Oscillator.voice_off of oscillator.rs: stamp the first unreleased voice
triggered by the key with the release time and its current amplitude. -/
def Oscillator.voice_off (o : Oscillator) (key : KeyCode) (now : ℚ) : Oscillator :=
  match o.voices.findIdx? (fun v => v.note.triggered_by == key && v.note.released.isNone) with
  | none => o
  | some i =>
    match o.voices.get? i with
    | none => o
    | some v =>
      let v2 := { v with note := { v.note with
        released := some { time := now, value := v.volume } } }
      { o with voices := o.voices.set i v2 }

/-- One voice pass of the loop in Oscillator.get_sample: the updated running
amplitude, clamped to at most 1; a muted voice (amplitude at most 0.01)
contributes nothing and keeps its phases (the loop continues before advancing
them); otherwise the unison values at the current phases are summed and every
phase advances. Returns (contribution, muted flag, updated voice). -/
def processVoice (wave : WaveDef) (adsr : ADSR) (now : ℚ) (v : Voice) :
    ℚ × Bool × Voice :=
  let vol := min (adsr.get_volume_incr v.volume (elapsedMs v.note.triggered_time now)
    v.note.released) 1
  if vol ≤ 1 / 100 then
    (0, true, { v with volume := vol })
  else
    let contrib := (v.unisons.map (fun u => wave.wave_func u.phase * u.volume)).sum
    let unisons2 := v.unisons.map (fun u =>
      { u with phase := wave.next_phase u.phase u.phase_incr })
    (contrib * vol, false, { v with volume := vol, unisons := unisons2 })

/-- Oscillator.get_sample of oscillator.rs: update every voice, sum the
contributions, and when some voice was muted this pass retain only voices
that are not both released and muted; the sum is scaled by the oscillator
volume. -/
def Oscillator.get_sample (o : Oscillator) (adsr : ADSR) (now : ℚ) : ℚ × Oscillator :=
  let results := o.voices.map (processVoice o.wave adsr now)
  let sample := (results.map (fun r => r.1)).sum
  let muted := results.any (fun r => r.2.1)
  let voices2 := results.map (fun r => r.2.2)
  let voices3 :=
    if muted then
      voices2.filter (fun v => !(v.note.released.isSome && decide (v.volume ≤ 1 / 100)))
    else voices2
  (sample * o.volume, { o with voices := voices3 })

/-- Oscillator.set_waveform of oscillator.rs. -/
def Oscillator.set_waveform (o : Oscillator) (sinf : ℚ → ℚ) (waveform : WaveForm) : Oscillator :=
  let wave := waveform.get_wave sinf
  { o with waveform := waveform, wave := wave,
           phase_start := o.phase_start.change_period wave.period }

/-- Oscillator.set_start of oscillator.rs. -/
def Oscillator.set_start (o : Oscillator) (start : Start) : Oscillator :=
  match start with
  | .Soft => { o with phase_start := .Soft }
  | .Hard => { o with phase_start := .Hard o.wave.period }
  | .Random => { o with phase_start := .Random o.wave.period }

/-- The body of the unison pair loop of Oscillator.set_unison_num: iteration i
pushes the detuned partner (tune ratio raised to the fraction of the most
detuned position) and then the reciprocal detune, both at the linearly scaled
volume. powf is the uninterpreted f32 powf. -/
def pairFun (powf : ℚ → ℚ → ℚ) (t : ℚ) (pn : ℕ) (i : ℕ) : List Unison :=
  let fraction : ℚ := ((pn - i : ℕ) : ℚ) / (pn : ℚ)
  let volume : ℚ := (7 / 10) / (pn : ℚ) * ((pn - i : ℕ) : ℚ)
  let freq_mod := powf t fraction
  [{ freq_mod := freq_mod, volume := volume },
   { freq_mod := 1 / freq_mod, volume := volume }]

/-- The pair-building loop of Oscillator.set_unison_num: for i in 0..pairs_num
push the two symmetric partials of pair i. -/
def buildPairs (powf : ℚ → ℚ → ℚ) (t : ℚ) (pn : ℕ) : List Unison :=
  (List.range pn).flatMap (pairFun powf t pn)

/-- Oscillator.set_unison_num of oscillator.rs: rebuild the unison table (a
single partial carrying the tune ratio when num is at most 1; otherwise an
optional centered partial when num is odd, then (num - num mod 2) / 2
symmetric pairs), then rebuild every active voice against the new table,
keeping phases that still have an index and drawing period * random for new
ones. rand gives the draw for voice index and unison index. -/
def Oscillator.set_unison_num (o : Oscillator) (powf : ℚ → ℚ → ℚ)
    (rand : ℕ → ℕ → ℚ) (num : ℕ) : Oscillator :=
  let unisons2 : List Unison :=
    if num ≤ 1 then [{ freq_mod := o.tune, volume := 1 }]
    else
      (if num % 2 = 1 then [{ freq_mod := 1, volume := 1 }] else [])
        ++ buildPairs powf o.tune ((num - num % 2) / 2)
  let period := o.wave.period
  let voices2 := o.voices.enum.map (fun pv =>
    let v := pv.2
    let phase_incr := v.note.frequency * o.transpose / o.sample_rate
    let phases := v.unisons.map (fun u => u.phase)
    let unis := unisons2.enum.map (fun pu =>
      { phase := phases.getD pu.1 (period * rand pv.1 pu.1)
        phase_incr := phase_incr * pu.2.freq_mod
        volume := pu.2.volume })
    { v with unisons := unis })
  { o with unisons := unisons2, voices := voices2 }

/-- Oscillator.update_unison of oscillator.rs. -/
def Oscillator.update_unison (o : Oscillator) (powf : ℚ → ℚ → ℚ)
    (rand : ℕ → ℕ → ℚ) : Oscillator :=
  o.set_unison_num powf rand o.unisons.length

/-- Oscillator.tune of oscillator.rs (the method; named tuneBy here because
the Lean structure already exposes the field named tune): set the tune ratio
to 2 to the power cents / 1200 and rebuild the unison table. -/
def Oscillator.tuneBy (o : Oscillator) (powf : ℚ → ℚ → ℚ)
    (rand : ℕ → ℕ → ℚ) (cents : ℤ) : Oscillator :=
  ({ o with tune := powf 2 ((cents : ℚ) / (12 * 100)) }).update_unison powf rand

/-- Oscillator.has_active_voices of oscillator.rs. -/
def Oscillator.has_active_voices (o : Oscillator) : Bool :=
  !o.voices.isEmpty

/-! ## Sample formats (the SampleFormat trait of synth.rs) -/

/-- Truncation toward zero, the rounding num_traits uses when a float is
converted to an integer sample type. -/
def ratTrunc (x : ℚ) : ℤ :=
  if 0 ≤ x then ⌊x⌋ else ⌈x⌉

/-- FromPrimitive.from_f32 for a bounded integer sample type: the truncated
value when it is representable, none (a panic through unwrap) otherwise. -/
def intFromF32 (lo hi : ℤ) (x : ℚ) : Option ℚ :=
  let t := ratTrunc x
  if lo ≤ t ∧ t ≤ hi then some (t : ℚ) else none

/-- A SampleFormat instance of synth.rs: max_value().as_() (the f32 value of
the maximum), min_value() likewise, and FromPrimitive.from_f32. -/
structure SampleFmt where
  maxValue : ℚ
  minValue : ℚ
  fromF32 : ℚ → Option ℚ

def u8fmt : SampleFmt := { maxValue := 255, minValue := 0, fromF32 := intFromF32 0 255 }

def i8fmt : SampleFmt := { maxValue := 127, minValue := -128, fromF32 := intFromF32 (-128) 127 }

def i16fmt : SampleFmt :=
  { maxValue := 32767, minValue := -32768, fromF32 := intFromF32 (-32768) 32767 }

/-- i32.max_value() as f32 rounds to 2^31. -/
def i32fmt : SampleFmt :=
  { maxValue := 2147483648, minValue := -2147483648
    fromF32 := intFromF32 (-2147483648) 2147483647 }

/-- f32.max_value() is 2^128 - 2^104; from_f32 for f32 is the identity. -/
def f32fmt : SampleFmt :=
  { maxValue := 2 ^ 128 - 2 ^ 104, minValue := -(2 ^ 128 - 2 ^ 104 : ℚ)
    fromF32 := fun x => some x }

/-! ## Synth (src/src/synth.rs) -/

/-- enum BaseError of error.rs (the arm set_volume raises). -/
inductive BaseError where
  | SynthError (msg : String)
deriving DecidableEq, Repr

/-- struct Synth of synth.rs. The sample type is a phantom parameter in the
source; the calls that consult it take a SampleFmt argument here. -/
structure Synth where
  sample_rate : ℚ
  volume : ℚ
  oscillators : List Oscillator
  envelopes : List ADSR

/-- Synth.new of synth.rs: the master volume starts at 1024.0. -/
def Synth.new (sample_rate : ℚ) : Synth :=
  { sample_rate := sample_rate, volume := 1024, oscillators := [], envelopes := [] }

/-- Synth.add_osc of synth.rs. -/
def Synth.add_osc (s : Synth) (osc : Oscillator) : Synth :=
  { s with oscillators := s.oscillators ++ [osc] }

/-- Synth.add_env of synth.rs. -/
def Synth.add_env (s : Synth) (env : ADSR) : Synth :=
  { s with envelopes := s.envelopes ++ [env] }

/-- Synth.set_volume of synth.rs: volumes above 0 dB or below -96 dB are
refused and the state is left untouched; otherwise the master gain becomes
max_value().as_() * 10 to the power volume / 20. -/
def Synth.set_volume (s : Synth) (fmt : SampleFmt) (powf : ℚ → ℚ → ℚ)
    (volume : ℤ) : Except BaseError Unit × Synth :=
  if 0 < volume ∨ volume < -96 then
    (.error (.SynthError "[-96, 0] dB is the range for volume"), s)
  else
    (.ok (), { s with volume := fmt.maxValue * powf 10 ((volume : ℚ) / 20) })

/-- Synth.note_on of synth.rs: one fresh Note broadcast to every oscillator;
rands i is the random stream oscillator i consumes. -/
def Synth.note_on (s : Synth) (rands : ℕ → ℕ → ℚ) (now freq : ℚ) (key : KeyCode) : Synth :=
  { s with oscillators := s.oscillators.enum.map (fun p =>
      p.2.create_voice (rands p.1) (Note.new freq key now)) }

/-- Synth.note_off of synth.rs. -/
def Synth.note_off (s : Synth) (key : KeyCode) (now : ℚ) : Synth :=
  { s with oscillators := s.oscillators.map (fun o => o.voice_off key now) }

/-- Synth.playing of synth.rs. -/
def Synth.playing (s : Synth) : Bool :=
  s.oscillators.any (fun o => o.has_active_voices)

/-- The oscillator loop of Synth.next: each oscillator is sampled against the
envelope its env_idx points at (an out-of-range index is the panic of
self.envelopes[osc.env_idx], modelled none) and the contributions are
accumulated. -/
def mixOscs (envs : List ADSR) (now : ℚ) : List Oscillator → Option (ℚ × List Oscillator)
  | [] => some (0, [])
  | o :: rest =>
    match envs[o.env_idx]? with
    | none => none
    | some e =>
      let r := o.get_sample e now
      match mixOscs envs now rest with
      | none => none
      | some (acc, rest2) => some (r.1 + acc, r.2 :: rest2)

/-- Iterator.next for Synth of synth.rs: sum every oscillator through its
referenced envelope, scale by the master volume, and convert with
SampleType.from_f32(..).unwrap() - the unwrap of a failed conversion is a
panic, modelled none. -/
def Synth.next (s : Synth) (fmt : SampleFmt) (now : ℚ) : Option (ℚ × Synth) :=
  match mixOscs s.envelopes now s.oscillators with
  | none => none
  | some (sample, oscs2) =>
    match fmt.fromF32 (sample * s.volume) with
    | none => none
    | some v => some (v, { s with oscillators := oscs2 })

/-! ## Fixed instantiations of the uninterpreted parameters, for concrete
instances of the theorems below. -/

/-- A concrete stand-in for the uninterpreted f32 sine. -/
def zeroSin : ℚ → ℚ := fun _ => 0

/-- A concrete random stream for create_voice. -/
def zeroRand1 : ℕ → ℚ := fun _ => 0

/-- A concrete random stream for set_unison_num and note_on. -/
def zeroRand : ℕ → ℕ → ℚ := fun _ _ => 0

/-- A concrete stand-in for the uninterpreted f32 powf. -/
def pfOne : ℚ → ℚ → ℚ := fun _ _ => 1

/-- A concrete stand-in for the uninterpreted f32 powf with value 2. -/
def pfTwo : ℚ → ℚ → ℚ := fun _ _ => 2

/-! ## Helper lemmas -/

/-- Iterating a map that adds a fixed step. -/
lemma iterate_map_add (g : ℚ → ℚ) (step : ℚ) (h : ∀ c, g c = c + step) :
    ∀ (n : ℕ) (x : ℚ), g^[n] x = x + n * step := by
  intro n
  induction n with
  | zero => simp
  | succ n ih =>
    intro x
    rw [Function.iterate_succ_apply, h x, ih]
    push_cast
    ring

/-- The ceiling of x, taken times the reciprocal of x, lands within one
reciprocal above 1. -/
lemma ceil_mul_one_div_bounds (x : ℚ) (hx : 0 < x) :
    1 ≤ (⌈x⌉₊ : ℚ) * (1 / x) ∧ (⌈x⌉₊ : ℚ) * (1 / x) ≤ 1 + 1 / x := by
  constructor
  · rw [mul_one_div]
    exact (one_le_div hx).mpr (Nat.le_ceil x)
  · rw [mul_one_div, div_le_iff₀ hx]
    have h2 : (⌈x⌉₊ : ℚ) < x + 1 := Nat.ceil_lt_add_one hx.le
    have hx0 : x ≠ 0 := ne_of_gt hx
    field_simp
    nlinarith

/-- Flattening blocks of two over a list yields twice its length. -/
lemma length_flatMap_two {α β : Type} (l : List α) (f : α → List β)
    (hf : ∀ i, (f i).length = 2) : (l.flatMap f).length = 2 * l.length := by
  induction l with
  | nil => simp
  | cons x xs ih =>
    rw [List.flatMap_cons, List.length_append, hf, ih, List.length_cons]
    omega

/-- Block i of a flattened range of two-element blocks. -/
lemma flatMap_range_two_take {α : Type} (f : ℕ → List α) (hf : ∀ i, (f i).length = 2)
    (pn : ℕ) : ∀ i, i < pn →
    (((List.range pn).flatMap f).drop (2 * i)).take 2 = f i := by
  induction pn with
  | zero => omega
  | succ pn ih =>
    intro i hi
    rw [List.range_succ, List.flatMap_append]
    have hlen : ((List.range pn).flatMap f).length = 2 * pn := by
      rw [length_flatMap_two _ _ hf, List.length_range]
    by_cases hip : i < pn
    · rw [List.drop_append_of_le_length (by omega),
        List.take_append_of_le_length (by rw [List.length_drop]; omega)]
      exact ih i hip
    · have hieq : i = pn := by omega
      rw [hieq]
      rw [List.drop_append_of_le_length (by omega)]
      have hdrop : ((List.range pn).flatMap f).drop (2 * pn) = [] := by
        apply List.drop_eq_nil_of_le
        omega
      rw [hdrop, List.nil_append, List.flatMap_cons, List.flatMap_nil, List.append_nil]
      exact List.take_of_length_le (by rw [hf])

/-! ## Claim theorems -/

/-- C10: a freshly constructed Synth has master volume exactly 1024.0 for
every sample rate and sample type (Synth.new never reads the sample type),
and 1024 exceeds the maximum representable amplitude of both 8-bit sample
formats, so it is not a value the dB-to-gain rule of set_volume can produce
for them. -/
theorem synth_new_default_volume (sr : ℚ) :
    (Synth.new sr).volume = 1024
    ∧ u8fmt.maxValue < (Synth.new sr).volume
    ∧ i8fmt.maxValue < (Synth.new sr).volume := by
  refine ⟨rfl, ?_, ?_⟩ <;> norm_num [Synth.new, u8fmt, i8fmt]

/-- C2: for every integer dB in [-96, 0] set_volume succeeds and stores
max_value().as_() * 10 ^ (dB / 20) as the master gain (powf is the
uninterpreted f32 power); for every dB above 0 or below -96 it returns the
validation error and the synth state, the stored gain included, is unchanged. -/
theorem set_volume_range_check (s : Synth) (fmt : SampleFmt) (powf : ℚ → ℚ → ℚ)
    (db : ℤ) :
    (-96 ≤ db ∧ db ≤ 0 →
      s.set_volume fmt powf db =
        (.ok (), { s with volume := fmt.maxValue * powf 10 ((db : ℚ) / 20) }))
    ∧ (0 < db ∨ db < -96 →
      s.set_volume fmt powf db =
        (.error (.SynthError "[-96, 0] dB is the range for volume"), s)) := by
  constructor
  · rintro ⟨h1, h2⟩
    rw [Synth.set_volume, if_neg]
    omega
  · intro h
    rw [Synth.set_volume, if_pos h]

/-- Instance of set_volume_range_check at dB = -6 on a fresh synth. -/
theorem set_volume_range_check_instance :
    (Synth.new 44100).set_volume u8fmt pfOne (-6) =
      (.ok (), { Synth.new 44100 with volume := u8fmt.maxValue * pfOne 10 ((-6 : ℚ) / 20) }) :=
  (set_volume_range_check (Synth.new 44100) u8fmt pfOne (-6)).1 (by omega)

/-- C7 (amended): set_parameter recomputes the dependent increment in the
same call for every parameter; attack is clamped to a 1 ms minimum, decay to
a 3 ms minimum, sustain is stored as given and also recomputes the decay
decrement, and release is stored without any clamp (the 1 ms release minimum
exists only in ADSR.new), with the release sample count recomputed. -/
theorem adsr_set_parameter_updates (e : ADSR) (val : ℚ) :
    ((e.set_parameter (.Attack val)).attack = max val 1
      ∧ (e.set_parameter (.Attack val)).attack_incr
          = 1 / (max val 1 / 1000 * e.sample_rate))
    ∧ ((e.set_parameter (.Decay val)).decay = max val 3
      ∧ (e.set_parameter (.Decay val)).decay_decr
          = -((1 - e.sustain) / (max val 3 / 1000 * e.sample_rate)))
    ∧ ((e.set_parameter (.Sustain val)).sustain = val
      ∧ (e.set_parameter (.Sustain val)).decay_decr
          = -((1 - val) / (e.decay / 1000 * e.sample_rate)))
    ∧ ((e.set_parameter (.Release val)).release = val
      ∧ (e.set_parameter (.Release val)).release_samples
          = val / 1000 * e.sample_rate) :=
  ⟨⟨rfl, rfl⟩, ⟨rfl, rfl⟩, ⟨rfl, rfl⟩, ⟨rfl, rfl⟩⟩

/-- Counterexample to C7 as stated: setting release to 0.5 ms at runtime
stores 0.5, below the 1 ms minimum the claim asserts for the stored release
value. -/
theorem adsr_release_unclamped :
    ((ADSR.new 44100 1 1 (1 / 2) 1).set_parameter (.Release (1 / 2))).release
      < adsr_constraints.MIN_RELEASE := by
  norm_num [ADSR.new, ADSR.set_parameter, adsr_constraints.MIN_RELEASE]

/-- C5: for an unreleased voice, one envelope update from ADSR.new parameters
behaves as: within attack_ms the amplitude rises by exactly
1 / (attack_ms / 1000 * sample_rate) (a positive increment), so from 0 it
reaches at least 1 and at most one increment above 1 after
ceil(attack_ms / 1000 * sample_rate) updates; within attack_ms + decay_ms it
falls by exactly (1 - sustain) / (decay_ms / 1000 * sample_rate) unless that
step would land at or below sustain, in which case the result is exactly
sustain; after attack + decay it holds at sustain. -/
theorem adsr_unreleased_stages (sr : ℚ) (a d : ℕ) (su : ℚ) (r : ℕ) (e : ADSR)
    (he : e = ADSR.new sr a d su r) (current aliveFor : ℚ) (hsr : 0 < sr) :
    (aliveFor ≤ e.attack →
        e.get_volume_incr current aliveFor none
            = current + 1 / (e.attack / 1000 * sr)
        ∧ 0 < 1 / (e.attack / 1000 * sr))
    ∧ (e.attack < aliveFor → aliveFor ≤ e.attack + e.decay →
        (su < current - (1 - su) / (e.decay / 1000 * sr) →
            e.get_volume_incr current aliveFor none
              = current - (1 - su) / (e.decay / 1000 * sr))
        ∧ (current - (1 - su) / (e.decay / 1000 * sr) ≤ su →
            e.get_volume_incr current aliveFor none = su))
    ∧ (e.attack + e.decay < aliveFor → e.get_volume_incr current aliveFor none = su)
    ∧ (aliveFor ≤ e.attack →
        1 ≤ (fun c => e.get_volume_incr c aliveFor none)^[⌈e.attack / 1000 * sr⌉₊] 0
        ∧ (fun c => e.get_volume_incr c aliveFor none)^[⌈e.attack / 1000 * sr⌉₊] 0
            ≤ 1 + 1 / (e.attack / 1000 * sr)) := by
  subst he
  have hattack : (ADSR.new sr a d su r).attack = max 1 (a : ℚ) := rfl
  have hdecay : (ADSR.new sr a d su r).decay = max 1 (d : ℚ) := rfl
  have hsu : (ADSR.new sr a d su r).sustain = su := rfl
  have hai : (ADSR.new sr a d su r).attack_incr
      = 1 / ((ADSR.new sr a d su r).attack / 1000 * sr) := rfl
  have hdd : (ADSR.new sr a d su r).decay_decr
      = -((1 - su) / ((ADSR.new sr a d su r).decay / 1000 * sr)) := rfl
  have hd1 : (1 : ℚ) ≤ (ADSR.new sr a d su r).decay := by
    rw [hdecay]
    exact le_max_left _ _
  have hApos : 0 < (ADSR.new sr a d su r).attack / 1000 * sr := by
    rw [hattack]
    have h1 : (0 : ℚ) < max 1 (a : ℚ) := lt_max_of_lt_left one_pos
    positivity
  have hstep : ∀ c, aliveFor ≤ (ADSR.new sr a d su r).attack →
      (ADSR.new sr a d su r).get_volume_incr c aliveFor none
        = c + 1 / ((ADSR.new sr a d su r).attack / 1000 * sr) := by
    intro c h
    rw [ADSR.get_volume_incr, if_pos h, hai]
  refine ⟨fun h => ⟨hstep current h, by positivity⟩, ?_, ?_, ?_⟩
  · intro h1 h2
    constructor
    · intro h3
      rw [ADSR.get_volume_incr, if_neg (not_le.mpr h1), if_pos h2,
        if_pos (show current + (ADSR.new sr a d su r).decay_decr
          > (ADSR.new sr a d su r).sustain by rw [hdd, hsu]; linarith), hdd]
      ring
    · intro h3
      rw [ADSR.get_volume_incr, if_neg (not_le.mpr h1), if_pos h2,
        if_neg (show ¬ current + (ADSR.new sr a d su r).decay_decr
          > (ADSR.new sr a d su r).sustain by rw [hdd, hsu]; simp only [gt_iff_lt, not_lt]; linarith),
        hsu]
  · intro h
    rw [ADSR.get_volume_incr, if_neg (not_le.mpr (by linarith)),
      if_neg (not_le.mpr h), hsu]
  · intro h
    have hiter := iterate_map_add
      (fun c => (ADSR.new sr a d su r).get_volume_incr c aliveFor none)
      (1 / ((ADSR.new sr a d su r).attack / 1000 * sr))
      (fun c => hstep c h) (⌈(ADSR.new sr a d su r).attack / 1000 * sr⌉₊) 0
    rw [hiter, zero_add]
    exact ceil_mul_one_div_bounds _ hApos

/-- Instance of adsr_unreleased_stages: 1000 Hz, 1 ms attack, amplitude 0 at
elapsed time 0 gains exactly one full increment. -/
theorem adsr_unreleased_stages_instance :
    (ADSR.new 1000 1 1 (1 / 2) 1).get_volume_incr 0 0 none
        = 0 + 1 / ((ADSR.new 1000 1 1 (1 / 2) 1).attack / 1000 * 1000)
    ∧ 0 < 1 / ((ADSR.new 1000 1 1 (1 / 2) 1).attack / 1000 * 1000) :=
  (adsr_unreleased_stages 1000 1 1 (1 / 2) 1 _ rfl 0 0 (by norm_num)).1
    (by norm_num [ADSR.new])

/-- C6: one envelope update of a released voice with release-time amplitude
v0 subtracts exactly v0 / (release_ms / 1000 * sample_rate), whatever the
current amplitude, elapsed trigger time or attack/decay position, and the
stored release sample count is release_ms / 1000 * sample_rate; iterating the
update ceil(release_ms / 1000 * sample_rate) times from v0 lands at or below
0. -/
theorem adsr_release_ramp (sr : ℚ) (a d : ℕ) (su : ℚ) (r : ℕ) (e : ADSR)
    (he : e = ADSR.new sr a d su r) (current v0 relTime aliveFor : ℚ)
    (hsr : 0 < sr) (hv0 : 0 ≤ v0) :
    e.get_volume_incr current aliveFor (some { time := relTime, value := v0 })
        = current - v0 / (e.release / 1000 * sr)
    ∧ e.release_samples = e.release / 1000 * sr
    ∧ (fun c => e.get_volume_incr c aliveFor
          (some { time := relTime, value := v0 }))^[⌈e.release / 1000 * sr⌉₊] v0
        ≤ 0 := by
  subst he
  have hrelease : (ADSR.new sr a d su r).release = max 1 (r : ℚ) := rfl
  have hRS : (ADSR.new sr a d su r).release_samples
      = (ADSR.new sr a d su r).release / 1000 * sr := rfl
  have hRpos : 0 < (ADSR.new sr a d su r).release / 1000 * sr := by
    rw [hrelease]
    have h1 : (0 : ℚ) < max 1 (r : ℚ) := lt_max_of_lt_left one_pos
    positivity
  have hstep : ∀ c, (ADSR.new sr a d su r).get_volume_incr c aliveFor
      (some { time := relTime, value := v0 })
        = c + -(v0 / ((ADSR.new sr a d su r).release / 1000 * sr)) := by
    intro c
    rw [ADSR.get_volume_incr]
    rw [hRS]
    ring
  refine ⟨by rw [hstep]; ring, hRS, ?_⟩
  rw [iterate_map_add _ _ hstep]
  have hk : (ADSR.new sr a d su r).release / 1000 * sr
      ≤ (⌈(ADSR.new sr a d su r).release / 1000 * sr⌉₊ : ℚ) :=
    Nat.le_ceil _
  have h1 : 1 ≤ (⌈(ADSR.new sr a d su r).release / 1000 * sr⌉₊ : ℚ)
      / ((ADSR.new sr a d su r).release / 1000 * sr) := (one_le_div hRpos).mpr hk
  have h2 : v0 * 1 ≤ v0 * ((⌈(ADSR.new sr a d su r).release / 1000 * sr⌉₊ : ℚ)
      / ((ADSR.new sr a d su r).release / 1000 * sr)) :=
    mul_le_mul_of_nonneg_left h1 hv0
  have h3 : (⌈(ADSR.new sr a d su r).release / 1000 * sr⌉₊ : ℚ)
      * (v0 / ((ADSR.new sr a d su r).release / 1000 * sr))
      = v0 * ((⌈(ADSR.new sr a d su r).release / 1000 * sr⌉₊ : ℚ)
        / ((ADSR.new sr a d su r).release / 1000 * sr)) := by ring
  linarith

/-- Instance of adsr_release_ramp: 1000 Hz, 300 ms release, amplitude 1 at
release time, one update subtracts 1/300 and 300 updates reach 0. -/
theorem adsr_release_ramp_instance :
    (ADSR.new 1000 1 1 (1 / 2) 300).get_volume_incr 1 0
        (some { time := 0, value := 1 })
        = 1 - 1 / ((ADSR.new 1000 1 1 (1 / 2) 300).release / 1000 * 1000)
    ∧ (ADSR.new 1000 1 1 (1 / 2) 300).release_samples
        = (ADSR.new 1000 1 1 (1 / 2) 300).release / 1000 * 1000
    ∧ (fun c => (ADSR.new 1000 1 1 (1 / 2) 300).get_volume_incr c 0
          (some { time := 0, value := 1 }))^[⌈(ADSR.new 1000 1 1 (1 / 2) 300).release / 1000 * 1000⌉₊] 1
        ≤ 0 :=
  adsr_release_ramp 1000 1 1 (1 / 2) 300 _ rfl 1 1 0 0 (by norm_num) (by norm_num)

/-- The rebuilt unison table of set_unison_num, read off the definition. -/
lemma set_unison_num_unisons (powf : ℚ → ℚ → ℚ) (rand : ℕ → ℕ → ℚ)
    (o : Oscillator) (n : ℕ) :
    (o.set_unison_num powf rand n).unisons
      = (if n ≤ 1 then [{ freq_mod := o.tune, volume := 1 }]
         else (if n % 2 = 1 then [{ freq_mod := 1, volume := 1 }] else [])
           ++ buildPairs powf o.tune ((n - n % 2) / 2)) := rfl

/-- The rebuilt unison table has max n 1 entries. -/
lemma set_unison_num_length (powf : ℚ → ℚ → ℚ) (rand : ℕ → ℕ → ℚ)
    (o : Oscillator) (n : ℕ) :
    (o.set_unison_num powf rand n).unisons.length = max n 1 := by
  rw [set_unison_num_unisons]
  by_cases h1 : n ≤ 1
  · rw [if_pos h1]
    simp
    omega
  · rw [if_neg h1, List.length_append]
    have hf : ∀ i, (pairFun powf o.tune ((n - n % 2) / 2) i).length = 2 := fun i => rfl
    rw [buildPairs, length_flatMap_two _ _ hf, List.length_range]
    by_cases hp : n % 2 = 1
    · simp [hp]
      omega
    · have hp0 : n % 2 = 0 := by omega
      simp [hp0]
      omega

/-- Pair i of the rebuilt unison table, for n at least 2: the two entries the
loop pushed on iteration i. -/
lemma set_unison_num_pair (powf : ℚ → ℚ → ℚ) (rand : ℕ → ℕ → ℚ)
    (o : Oscillator) (n : ℕ) (hn : 2 ≤ n) :
    ∀ i, i < n / 2 →
      (((o.set_unison_num powf rand n).unisons.drop (n % 2 + 2 * i)).take 2)
        = pairFun powf o.tune (n / 2) i := by
  intro i hi
  have hpn : (n - n % 2) / 2 = n / 2 := by omega
  have hf : ∀ j, (pairFun powf o.tune (n / 2) j).length = 2 := fun j => rfl
  rw [set_unison_num_unisons, if_neg (by omega), hpn]
  have hdrop : ((if n % 2 = 1 then [({ freq_mod := 1, volume := 1 } : Unison)] else [])
        ++ buildPairs powf o.tune (n / 2)).drop (n % 2 + 2 * i)
      = (buildPairs powf o.tune (n / 2)).drop (2 * i) := by
    by_cases hp : n % 2 = 1
    · simp only [hp, if_pos, List.singleton_append]
      have h12 : 1 + 2 * i = 2 * i + 1 := by omega
      rw [h12, List.drop_succ_cons]
    · have hp0 : n % 2 = 0 := by omega
      simp [hp0]
  rw [hdrop, buildPairs, flatMap_range_two_take _ hf _ i hi]

/-- C3 (amended): after set_unison_num(n) the partial table always has
max n 1 entries, so at least one; with n at most 1 it is the single partial
carrying the oscillator tune ratio as its frequency ratio (1.0 only when the
oscillator is untuned); with n at least 2 it is the parity head (one
structurally centered partial of ratio exactly 1.0 iff n is odd) followed by
the symmetric pairs, and each pair holds a partial and its literal
reciprocal at equal volume. -/
theorem unison_table_parity (powf : ℚ → ℚ → ℚ) (rand : ℕ → ℕ → ℚ)
    (o : Oscillator) (n : ℕ) :
    (o.set_unison_num powf rand n).unisons.length = max n 1
    ∧ 1 ≤ (o.set_unison_num powf rand n).unisons.length
    ∧ (n ≤ 1 →
        (o.set_unison_num powf rand n).unisons = [{ freq_mod := o.tune, volume := 1 }])
    ∧ (2 ≤ n →
        (o.set_unison_num powf rand n).unisons
          = (if n % 2 = 1 then [{ freq_mod := 1, volume := 1 }] else [])
            ++ buildPairs powf o.tune (n / 2))
    ∧ (2 ≤ n → ∀ i, i < n / 2 →
        ∃ u : Unison,
          (((o.set_unison_num powf rand n).unisons.drop (n % 2 + 2 * i)).take 2)
            = [u, { freq_mod := 1 / u.freq_mod, volume := u.volume }]) := by
  refine ⟨set_unison_num_length powf rand o n, ?_, ?_, ?_, ?_⟩
  · rw [set_unison_num_length]
    omega
  · intro h1
    rw [set_unison_num_unisons, if_pos h1]
  · intro h2
    have hpn : (n - n % 2) / 2 = n / 2 := by omega
    rw [set_unison_num_unisons, if_neg (by omega), hpn]
  · intro h2 i hi
    refine ⟨{ freq_mod := powf o.tune (((n / 2 - i : ℕ) : ℚ) / ((n / 2 : ℕ) : ℚ)),
              volume := (7 / 10) / ((n / 2 : ℕ) : ℚ) * ((n / 2 - i : ℕ) : ℚ) }, ?_⟩
    rw [set_unison_num_pair powf rand o n h2 i hi]
    rfl

/-- Counterexample to C3 as stated: an oscillator tuned to ratio 2 (the tune
control with powf returning 2) that is set to a single unison stores
frequency ratio 2, not 1.0, in its only partial. -/
theorem unison_single_carries_tune :
    (((Oscillator.new zeroSin 1000 .Saw 0 1).tuneBy pfTwo zeroRand 100).set_unison_num
        pfTwo zeroRand 1).unisons = [{ freq_mod := 2, volume := 1 }]
    ∧ (2 : ℚ) ≠ 1 := by
  constructor
  · rfl
  · norm_num

/-- Instance of unison_table_parity at n = 5: one centered partial of ratio
1.0 followed by the two pairs. -/
theorem unison_table_parity_instance :
    ((Oscillator.new zeroSin 1000 .Saw 0 1).set_unison_num pfOne zeroRand 5).unisons
      = (if 5 % 2 = 1 then [{ freq_mod := 1, volume := 1 }] else [])
        ++ buildPairs pfOne (Oscillator.new zeroSin 1000 .Saw 0 1).tune (5 / 2) :=
  (unison_table_parity pfOne zeroRand (Oscillator.new zeroSin 1000 .Saw 0 1) 5).2.2.2.1
    (by omega)

/-- C4 (amended): for n at least 2, set_unison_num builds floor(n / 2)
symmetric pairs; pair i carries frequency ratio tune ^ fraction and its
reciprocal with fraction = (pn - i) / pn falling from 1 towards 0 across the
pairs, and volume (0.7 / pn) * (pn - i), linearly scaled by pair index: the
first pair - the most detuned one - is the loudest at exactly the 0.7 cap,
and every later (less detuned) pair is strictly quieter, so all pair volumes
stay at or below 0.7. -/
theorem unison_pair_volumes (powf : ℚ → ℚ → ℚ) (rand : ℕ → ℕ → ℚ)
    (o : Oscillator) (n : ℕ) (hn : 2 ≤ n) :
    (o.set_unison_num powf rand n).unisons.length = n
    ∧ (∀ i, i < n / 2 →
        (((o.set_unison_num powf rand n).unisons.drop (n % 2 + 2 * i)).take 2)
          = [{ freq_mod := powf o.tune (((n / 2 - i : ℕ) : ℚ) / ((n / 2 : ℕ) : ℚ)),
               volume := (7 / 10) / ((n / 2 : ℕ) : ℚ) * ((n / 2 - i : ℕ) : ℚ) },
             { freq_mod := 1 / powf o.tune (((n / 2 - i : ℕ) : ℚ) / ((n / 2 : ℕ) : ℚ)),
               volume := (7 / 10) / ((n / 2 : ℕ) : ℚ) * ((n / 2 - i : ℕ) : ℚ) }])
    ∧ (∀ i, i < n / 2 →
        (7 / 10) / ((n / 2 : ℕ) : ℚ) * ((n / 2 - i : ℕ) : ℚ) ≤ 7 / 10)
    ∧ (∀ i j, i < j → j < n / 2 →
        (7 / 10) / ((n / 2 : ℕ) : ℚ) * ((n / 2 - j : ℕ) : ℚ)
          < (7 / 10) / ((n / 2 : ℕ) : ℚ) * ((n / 2 - i : ℕ) : ℚ))
    ∧ (7 / 10) / ((n / 2 : ℕ) : ℚ) * ((n / 2 - 0 : ℕ) : ℚ) = 7 / 10 := by
  have hpn0 : 0 < n / 2 := by omega
  have hpnQ : (0 : ℚ) < ((n / 2 : ℕ) : ℚ) := by exact_mod_cast hpn0
  refine ⟨by rw [set_unison_num_length]; omega, ?_, ?_, ?_, ?_⟩
  · intro i hi
    rw [set_unison_num_pair powf rand o n hn i hi]
    rfl
  · intro i hi
    have hle : ((n / 2 - i : ℕ) : ℚ) ≤ ((n / 2 : ℕ) : ℚ) := by
      exact_mod_cast Nat.sub_le _ _
    have h1 : (7 / 10) / ((n / 2 : ℕ) : ℚ) * ((n / 2 - i : ℕ) : ℚ)
        ≤ (7 / 10) / ((n / 2 : ℕ) : ℚ) * ((n / 2 : ℕ) : ℚ) := by
      apply mul_le_mul_of_nonneg_left hle
      positivity
    have h2 : (7 / 10) / ((n / 2 : ℕ) : ℚ) * ((n / 2 : ℕ) : ℚ) = 7 / 10 := by
      field_simp
      ring
    linarith
  · intro i j hij hj
    apply mul_lt_mul_of_pos_left
    · exact_mod_cast Nat.sub_lt_sub_left (by omega) hij
    · positivity
  · have : ((n / 2 - 0 : ℕ) : ℚ) = ((n / 2 : ℕ) : ℚ) := by norm_num
    rw [this]
    field_simp
    ring

/-- Counterexample to C4 as stated: for n = 4 the first (most detuned) pair
gets volume 0.7 and the second, least detuned, innermost pair gets 0.35, so
the innermost pair is not the loudest. -/
theorem unison_inner_pair_not_loudest :
    ((Oscillator.new zeroSin 1000 .Saw 0 1).set_unison_num pfOne zeroRand 4).unisons
      = [{ freq_mod := 1, volume := 7 / 10 }, { freq_mod := 1, volume := 7 / 10 },
         { freq_mod := 1, volume := 7 / 20 }, { freq_mod := 1, volume := 7 / 20 }]
    ∧ (7 / 20 : ℚ) < 7 / 10 := by
  constructor
  · have hu0 : ((Oscillator.new zeroSin 1000 .Saw 0 1).set_unison_num pfOne zeroRand 4).unisons
        = buildPairs pfOne 1 2 := rfl
    have hr2 : List.range 2 = [0, 1] := rfl
    have p0 : pairFun pfOne 1 2 0
        = [{ freq_mod := 1, volume := 7 / 10 }, { freq_mod := 1, volume := 7 / 10 }] := by
      norm_num [pairFun, pfOne]
    have p1 : pairFun pfOne 1 2 1
        = [{ freq_mod := 1, volume := 7 / 20 }, { freq_mod := 1, volume := 7 / 20 }] := by
      norm_num [pairFun, pfOne]
    rw [hu0, buildPairs, hr2, List.flatMap_cons, List.flatMap_cons, List.flatMap_nil,
      List.append_nil, p0, p1]
    rfl
  · norm_num

/-- Instance of unison_pair_volumes at n = 4, pair 0. -/
theorem unison_pair_volumes_instance :
    (((Oscillator.new zeroSin 1000 .Saw 0 1).set_unison_num pfOne zeroRand 4).unisons.drop
        (4 % 2 + 2 * 0)).take 2
      = [{ freq_mod := pfOne (Oscillator.new zeroSin 1000 .Saw 0 1).tune
             (((4 / 2 - 0 : ℕ) : ℚ) / ((4 / 2 : ℕ) : ℚ)),
           volume := (7 / 10) / ((4 / 2 : ℕ) : ℚ) * ((4 / 2 - 0 : ℕ) : ℚ) },
         { freq_mod := 1 / pfOne (Oscillator.new zeroSin 1000 .Saw 0 1).tune
             (((4 / 2 - 0 : ℕ) : ℚ) / ((4 / 2 : ℕ) : ℚ)),
           volume := (7 / 10) / ((4 / 2 : ℕ) : ℚ) * ((4 / 2 - 0 : ℕ) : ℚ) }] :=
  ((unison_pair_volumes pfOne zeroRand (Oscillator.new zeroSin 1000 .Saw 0 1) 4
    (by omega)).2.1) 0 (by omega)

/-- Modelled from the spec, section 4.1: the lower bound of each waveform
valid phase domain of the kind ([-1, 1) for Saw, starting at 0 for the others). -/
def specDomLo : WaveForm → ℚ
  | .Sine => 0
  | .Square => 0
  | .Pulse25 => 0
  | .Saw => -1
  | .Triangle => 0

/-- Modelled from the spec, section 4.1: the upper bound of each waveform
valid phase domain of the kind ([0, TWO_PI) for Sine and Square, [0, 2) for
Pulse25, [-1, 1) for Saw, [0, 4) for Triangle). -/
def specDomHi : WaveForm → ℚ
  | .Sine => TWO_PI
  | .Square => TWO_PI
  | .Pulse25 => 2
  | .Saw => 1
  | .Triangle => 4

/-- Modelled from the spec, section 4.1: membership of a phase in the valid
phase domain of a waveform kind. -/
abbrev specPhaseDomain (w : WaveForm) (p : ℚ) : Prop :=
  specDomLo w ≤ p ∧ p < specDomHi w

/-- C9 (amended): for every waveform kind, every phase in the valid
domain and every phase increment between 0 and 1, next_phase advances the
phase by increment * period, subtracting one period when the wrap threshold
is reached, and the result lies in the valid domain again. (The single
conditional subtraction cannot bring increments above 1 back into the
domain, so the bound on the increment is needed; see the counterexample.) -/
theorem next_phase_wrap (sinf : ℚ → ℚ) (w : WaveForm) (phase incr : ℚ)
    (hp : specPhaseDomain w phase) (h0 : 0 ≤ incr) (h1 : incr ≤ 1) :
    specPhaseDomain w ((w.get_wave sinf).next_phase phase incr)
    ∧ ((w.get_wave sinf).next_phase phase incr
        = phase + incr * (w.get_wave sinf).period
      ∨ (w.get_wave sinf).next_phase phase incr
        = phase + incr * (w.get_wave sinf).period - (w.get_wave sinf).period) := by
  have hTP : (0 : ℚ) < TWO_PI := by norm_num [TWO_PI]
  have hP1 : incr * TWO_PI ≤ TWO_PI := by nlinarith
  have hP0 : 0 ≤ incr * TWO_PI := by positivity
  have h2a : incr * 2 ≤ 2 := by nlinarith
  have h2b : (0 : ℚ) ≤ incr * 2 := by positivity
  have h4a : incr * 4 ≤ 4 := by nlinarith
  have h4b : (0 : ℚ) ≤ incr * 4 := by positivity
  obtain ⟨hlo, hhi⟩ := hp
  cases w <;>
    simp only [WaveForm.get_wave, Sine.wave, Square.wave, Pulse25.wave, Saw.wave,
      Triangle.wave, specDomLo, specDomHi, specPhaseDomain] at hlo hhi ⊢ <;>
    split_ifs with h <;>
    first
    | exact ⟨⟨by linarith, by linarith⟩, Or.inr rfl⟩
    | exact ⟨⟨by linarith, by linarith⟩, Or.inl rfl⟩

/-- Counterexample to C9 as stated: for the saw waveform, phase 0 (inside
the valid domain) and increment 2, next_phase returns 2, which is outside
the valid phase domain [-1, 1). -/
theorem next_phase_escapes_domain :
    (WaveForm.get_wave zeroSin .Saw).next_phase 0 2 = 2
    ∧ ¬ specPhaseDomain .Saw ((WaveForm.get_wave zeroSin .Saw).next_phase 0 2) := by
  have h : (WaveForm.get_wave zeroSin .Saw).next_phase 0 2 = 2 := by
    norm_num [WaveForm.get_wave, Saw.wave]
  refine ⟨h, ?_⟩
  rw [specPhaseDomain, h]
  norm_num [specDomLo, specDomHi]

/-- Instance of next_phase_wrap: saw waveform, phase 0, increment one half. -/
theorem next_phase_wrap_instance :
    specPhaseDomain .Saw ((WaveForm.get_wave zeroSin .Saw).next_phase 0 (1 / 2))
    ∧ ((WaveForm.get_wave zeroSin .Saw).next_phase 0 (1 / 2)
        = 0 + 1 / 2 * (WaveForm.get_wave zeroSin .Saw).period
      ∨ (WaveForm.get_wave zeroSin .Saw).next_phase 0 (1 / 2)
        = 0 + 1 / 2 * (WaveForm.get_wave zeroSin .Saw).period
          - (WaveForm.get_wave zeroSin .Saw).period) :=
  next_phase_wrap zeroSin .Saw 0 (1 / 2)
    (by rw [specPhaseDomain]; norm_num [specDomLo, specDomHi]) (by norm_num) (by norm_num)

/-- The number of unreleased voices of an oscillator matching a note by Note
equality - the condition Oscillator.create_voice searches for. -/
def countMatchingUnreleased (o : Oscillator) (note : Note) : ℕ :=
  (o.voices.filter (fun v => v.note.eqb note && v.note.released.isNone)).length

/-- The matching count only reads frequency and key, never the trigger time. -/
lemma count_time_irrel (o : Oscillator) (freq : ℚ) (key : KeyCode) (t1 t2 : ℚ) :
    countMatchingUnreleased o (Note.new freq key t1)
      = countMatchingUnreleased o (Note.new freq key t2) := by
  unfold countMatchingUnreleased
  congr 1

/-- The duplicate check of create_voice succeeds exactly when the matching
count is positive. -/
lemma count_any (o : Oscillator) (note : Note) :
    o.voices.any (fun v => v.note.eqb note && v.note.released.isNone) = true
      ↔ 1 ≤ countMatchingUnreleased o note := by
  rw [List.any_eq_true]
  unfold countMatchingUnreleased
  constructor
  · rintro ⟨v, hm, hp⟩
    have hmem : v ∈ List.filter (fun v => v.note.eqb note && v.note.released.isNone) o.voices :=
      List.mem_filter.mpr ⟨hm, hp⟩
    exact List.length_pos.mpr (List.ne_nil_of_mem hmem)
  · intro h1
    have hpos : 0 < (List.filter (fun v => v.note.eqb note && v.note.released.isNone)
        o.voices).length := by omega
    obtain ⟨v, hv⟩ := List.exists_mem_of_ne_nil _ (List.length_pos.mp hpos)
    exact ⟨v, (List.mem_filter.mp hv).1, (List.mem_filter.mp hv).2⟩

/-- create_voice is a no-op when an unreleased matching voice exists. -/
lemma create_voice_noop (o : Oscillator) (r : ℕ → ℚ) (note : Note)
    (h : 1 ≤ countMatchingUnreleased o note) :
    o.create_voice r note = o := by
  rw [Oscillator.create_voice, if_pos ((count_any o note).mpr h)]

/-- create_voice on an oscillator with no unreleased matching voice leaves
exactly one. -/
lemma create_voice_count (o : Oscillator) (r : ℕ → ℚ) (note : Note)
    (h0 : countMatchingUnreleased o note = 0) (hrel : note.released = none) :
    countMatchingUnreleased (o.create_voice r note) note = 1 := by
  have hneg : ¬ o.voices.any (fun v => v.note.eqb note && v.note.released.isNone) = true := by
    intro hany
    have := (count_any o note).mp hany
    omega
  rw [Oscillator.create_voice, if_neg hneg]
  show (List.filter (fun v => v.note.eqb note && v.note.released.isNone)
      (o.voices ++ [o.mkVoice r note])).length = 1
  rw [List.filter_append]
  have hnil : List.filter (fun v => v.note.eqb note && v.note.released.isNone) o.voices = [] :=
    List.length_eq_zero.mp h0
  rw [hnil, List.nil_append]
  have hpred : ((o.mkVoice r note).note.eqb note && (o.mkVoice r note).note.released.isNone)
      = true := by
    show (note.eqb note && note.released.isNone) = true
    rw [hrel]
    simp [Note.eqb]
  rw [List.filter_cons, if_pos hpred]
  rfl

/-- Mapping the identity over an enumerated list gives the list back. -/
lemma enumFrom_map_eq_self {α : Type} (f : ℕ × α → α) :
    ∀ (n : ℕ) (l : List α), (∀ p ∈ List.enumFrom n l, f p = p.2) →
      (List.enumFrom n l).map f = l := by
  intro n l
  induction l generalizing n with
  | nil => intro _; rfl
  | cons x xs ih =>
    intro h
    rw [List.enumFrom_cons, List.map_cons,
      h (n, x) (by rw [List.enumFrom_cons]; exact List.mem_cons_self _ _),
      ih (n + 1) (fun p hp => h p (by rw [List.enumFrom_cons]; exact List.mem_cons_of_mem _ hp))]

/-- The payload of an enumerated entry belongs to the underlying list. -/
lemma mem_of_mem_enumFrom {α : Type} {p : ℕ × α} {n : ℕ} {l : List α}
    (h : p ∈ List.enumFrom n l) : p.2 ∈ l := by
  obtain ⟨i, x⟩ := p
  obtain ⟨h1, h2, h3⟩ := List.mem_enumFrom h
  rw [h3]
  exact List.getElem_mem _

/-- C8: when no oscillator holds an unreleased voice matching (freq, key),
note_on creates exactly one such voice per oscillator, and a second note_on
with the same frequency and key - Note equality ignores the trigger time -
while that voice is unreleased changes nothing. -/
theorem note_on_idempotent (s : Synth) (r1 r2 : ℕ → ℕ → ℚ) (now1 now2 freq : ℚ)
    (key : KeyCode)
    (h : ∀ o ∈ s.oscillators, countMatchingUnreleased o (Note.new freq key now1) = 0) :
    (s.note_on r1 now1 freq key).note_on r2 now2 freq key = s.note_on r1 now1 freq key
    ∧ ∀ o ∈ (s.note_on r1 now1 freq key).oscillators,
        countMatchingUnreleased o (Note.new freq key now1) = 1 := by
  have hcount : ∀ o ∈ (s.note_on r1 now1 freq key).oscillators,
      countMatchingUnreleased o (Note.new freq key now1) = 1 := by
    intro o ho
    have ho2 : o ∈ (List.enumFrom 0 s.oscillators).map (fun p =>
        p.2.create_voice (r1 p.1) (Note.new freq key now1)) := ho
    obtain ⟨p, hp, rfl⟩ := List.mem_map.mp ho2
    exact create_voice_count _ _ _ (h p.2 (mem_of_mem_enumFrom hp)) rfl
  refine ⟨?_, hcount⟩
  have hosc : ((s.note_on r1 now1 freq key).oscillators.enum).map (fun p =>
      p.2.create_voice (r2 p.1) (Note.new freq key now2))
        = (s.note_on r1 now1 freq key).oscillators := by
    apply enumFrom_map_eq_self
    intro p hp
    apply create_voice_noop
    have h1 := hcount p.2 (mem_of_mem_enumFrom hp)
    rw [count_time_irrel p.2 freq key now2 now1, h1]
  show { s.note_on r1 now1 freq key with
    oscillators := ((s.note_on r1 now1 freq key).oscillators.enum).map (fun p =>
      p.2.create_voice (r2 p.1) (Note.new freq key now2)) } = s.note_on r1 now1 freq key
  rw [hosc]

/-- Instance of note_on_idempotent: one oscillator, note (440, key 7) played
twice. -/
theorem note_on_idempotent_instance :
    (((Synth.new 1000).add_osc (Oscillator.new zeroSin 1000 .Saw 0 1)).note_on
        zeroRand 0 440 7).note_on zeroRand 1 440 7
      = ((Synth.new 1000).add_osc (Oscillator.new zeroSin 1000 .Saw 0 1)).note_on
        zeroRand 0 440 7 :=
  (note_on_idempotent ((Synth.new 1000).add_osc (Oscillator.new zeroSin 1000 .Saw 0 1))
    zeroRand zeroRand 0 1 440 7
    (by
      intro o ho
      have : o = Oscillator.new zeroSin 1000 .Saw 0 1 := by
        simpa [Synth.add_osc, Synth.new] using ho
      rw [this]
      rfl)).1

/-- The oscillator loop of Synth.next evaluated: when every envelope index is
in range, it yields the sum of the per-oscillator samples and the updated
oscillators (the default fed to getD is irrelevant under the hypothesis). -/
lemma mixOscs_eq (envs : List ADSR) (now : ℚ) (dflt : ADSR) :
    ∀ oscs : List Oscillator, (∀ o ∈ oscs, o.env_idx < envs.length) →
      mixOscs envs now oscs
        = some ((oscs.map (fun o =>
            (o.get_sample (envs.getD o.env_idx dflt) now).1)).sum,
          oscs.map (fun o => (o.get_sample (envs.getD o.env_idx dflt) now).2)) := by
  intro oscs
  induction oscs with
  | nil => intro _; rfl
  | cons o rest ih =>
    intro h
    have hidx : o.env_idx < envs.length := h o (List.mem_cons_self _ _)
    have hget : envs[o.env_idx]? = some (envs.getD o.env_idx dflt) := by
      rw [List.getD_eq_getElem?_getD, List.getElem?_eq_getElem hidx]
      rfl
    rw [mixOscs, hget, ih (fun o2 ho2 => h o2 (List.mem_cons_of_mem _ ho2))]
    simp

/-- C1 (amended): a Synth.next call with every envelope index in range
produces from_f32(sum of the oscillator samples * master volume): the sum of
every get_sample on its referenced envelope is scaled by the master gain and
converted with the truncating from_f32, and the call yields a sample exactly
when that scaled value is representable in the target sample type - an
unrepresentable value makes from_f32 return none and the unwrap panic, so the
stream fails rather than clamping (see the counterexample). -/
theorem next_sum_gain_conversion (s : Synth) (fmt : SampleFmt) (now : ℚ) (dflt : ADSR)
    (henv : ∀ o ∈ s.oscillators, o.env_idx < s.envelopes.length) :
    s.next fmt now
      = (fmt.fromF32 ((s.oscillators.map (fun o =>
            (o.get_sample (s.envelopes.getD o.env_idx dflt) now).1)).sum * s.volume)).map
          (fun v => (v, { s with oscillators := s.oscillators.map (fun o =>
            (o.get_sample (s.envelopes.getD o.env_idx dflt) now).2) })) := by
  rw [Synth.next, mixOscs_eq s.envelopes now dflt s.oscillators henv]
  cases hf : fmt.fromF32 ((s.oscillators.map (fun o =>
      (o.get_sample (s.envelopes.getD o.env_idx dflt) now).1)).sum * s.volume) with
  | none =>
    simp only [List.getD_eq_getElem?_getD] at hf
    simp [hf]
  | some v =>
    simp only [List.getD_eq_getElem?_getD] at hf
    simp [hf]

/-- Instance of next_sum_gain_conversion on a fresh synth with no
oscillators. -/
theorem next_sum_gain_conversion_instance :
    (Synth.new 1000).next u8fmt 0
      = (u8fmt.fromF32 (((Synth.new 1000).oscillators.map (fun o =>
            (o.get_sample ((Synth.new 1000).envelopes.getD o.env_idx
              (ADSR.new 1000 1 1 1 1)) 0).1)).sum * (Synth.new 1000).volume)).map
          (fun v => (v, { Synth.new 1000 with
            oscillators := (Synth.new 1000).oscillators.map (fun o =>
              (o.get_sample ((Synth.new 1000).envelopes.getD o.env_idx
                (ADSR.new 1000 1 1 1 1)) 0).2) })) :=
  next_sum_gain_conversion (Synth.new 1000) u8fmt 0 (ADSR.new 1000 1 1 1 1)
    (by intro o ho; simp [Synth.new] at ho)

/-- A synth driven to a state where the next sample overflows the u8 range:
1000 Hz sample rate, one saw oscillator at hard phase start (phase period/4),
envelope attack 1 ms, one note at 800 Hz. The first sample is
wave(1/2) * voice volume 1 * oscillator volume 1 * master volume 1024 = 512,
not representable in u8. -/
def s0C1 : Synth :=
  (((Synth.new 1000).add_env (ADSR.new 1000 1 1 (1 / 2) 1)).add_osc
    ((Oscillator.new zeroSin 1000 .Saw 0 1).set_start .Hard)).note_on zeroRand 0 800 0

/-- Counterexample to C1 as stated: the generation request panics (returns no
sample) instead of clamping 512 into the u8 range. -/
theorem next_panics_on_unrepresentable : s0C1.next u8fmt 0 = none := by
  norm_num [s0C1, Synth.new, Synth.add_env, Synth.add_osc, Synth.note_on, Synth.next,
    Oscillator.new, Oscillator.set_start, Oscillator.create_voice, Oscillator.mkVoice,
    Oscillator.get_sample, processVoice, mixOscs, Note.new, Note.eqb, elapsedMs,
    ADSR.new, ADSR.get_volume_incr, PhaseStart.value, WaveForm.get_wave, Saw.wave,
    zeroRand, zeroSin, u8fmt, intFromF32, ratTrunc, List.enum, List.enumFrom,
    adsr_constraints.MIN_ATTACK, adsr_constraints.MIN_DECAY, adsr_constraints.MIN_RELEASE]

end BeepBoop
